import Mathlib

/-!
Verification of the faunadb-js query-construction and pagination layer.

The JavaScript/TypeScript source is embedded shallowly:

* `Raw` is the domain of host values flowing through `wrap`, `Expr.toString`
  and `JSON.stringify`: `null`, `undefined`, strings, numbers (modelled as
  `Int`), booleans, symbols, arrays, plain keyed objects (ordered field
  lists, as JS objects preserve insertion order), and `Expr` instances
  (`Raw.expr r` is an `Expr` whose `.raw` field is `r`).  Host callables and
  binary buffers are outside the modelled fragment: no claim quantifies over
  them (the escape-correctness claim explicitly excludes both).
* `wrap` / `wrapValues` translate `query.wrap` / `query.wrapValues`.
* `encode` translates the `JSON.stringify`/`toJSON` pipeline into a wire
  JSON tree (`Wire`); `none` models the `undefined` result `JSON.stringify`
  produces for `undefined`/symbol values.
* `exprToString` translates the static `Expr.toString` renderer; `none`
  models the `TypeError` the renderer raises (e.g. on an object with no
  keys, where `keys[0].split` is applied to `undefined`).
-/

inductive Raw where
  | null
  | undefinedV
  | str (s : String)
  | int (n : Int)
  | bool (b : Bool)
  | sym (s : String)
  | arr (xs : List Raw)
  | obj (fs : List (String × Raw))
  | expr (r : Raw)

/-- JS `Symbol(name).toString().replace(/Symbol\((.*)\)/, ...)`: the bare
symbol description. -/
def symName (s : String) : String := s

mutual

/-- `query.wrap(obj)`: case analysis in the source order — `null`, `Expr`
instance, symbol, (callable: outside the modelled fragment), array,
(byte buffer: outside the modelled fragment), keyed object, primitives. -/
def wrap : Raw → Raw
  | .null => .null
  | .expr r => .expr r
  | .sym s => .str (symName s)
  | .arr xs => .expr (.arr (wrapList xs))
  | .obj fs => .expr (.obj [("object", .obj (wrapValues fs))])
  | .str s => .str s
  | .int n => .int n
  | .bool b => .bool b
  | .undefinedV => .undefinedV

/-- `obj.map(function(elem) { return wrap(elem); })`. -/
def wrapList : List Raw → List Raw
  | [] => []
  | x :: xs => wrap x :: wrapList xs

/-- `query.wrapValues(obj)`: wraps every value, preserving the keys. -/
def wrapValues : List (String × Raw) → List (String × Raw)
  | [] => []
  | (k, v) :: fs => (k, wrap v) :: wrapValues fs

end

/-- A wire-level JSON tree (the output of `JSON.stringify` before
serialisation to text). -/
inductive Wire where
  | null
  | str (s : String)
  | int (n : Int)
  | bool (b : Bool)
  | arr (xs : List Wire)
  | obj (fs : List (String × Wire))

mutual

/-- `JSON.stringify` over the modelled value domain.  `Expr.prototype.toJSON`
returns `this.raw`, so an `Expr` encodes as its raw form; `undefined` and
symbols produce no output (`none`). -/
def encode : Raw → Option Wire
  | .null => some .null
  | .undefinedV => none
  | .sym _ => none
  | .str s => some (.str s)
  | .int n => some (.int n)
  | .bool b => some (.bool b)
  | .arr xs => some (.arr (encodeList xs))
  | .obj fs => some (.obj (encodeFields fs))
  | .expr r => encode r

/-- Array elements that stringify to `undefined` become JSON `null`. -/
def encodeList : List Raw → List Wire
  | [] => []
  | x :: xs => (encode x).getD .null :: encodeList xs

/-- Object fields whose value stringifies to `undefined` are omitted. -/
def encodeFields : List (String × Raw) → List (String × Wire)
  | [] => []
  | (k, v) :: fs =>
      match encode v with
      | some w => (k, w) :: encodeFields fs
      | none => encodeFields fs

end

/-- The fixed list of variadic function tags (`varArgsFunctions` in the
source): a sequence rendered as the immediate argument of one of these has
its enclosing brackets omitted. -/
def varArgsFunctions : List String :=
  ["Do", "Call", "Union", "Intersection", "Difference", "Equals", "Add",
   "Multiply", "Subtract", "Divide", "Modulo", "LT", "LTE", "GT", "GTE",
   "And", "Or"]

/-- The `specialCases` renaming table of the renderer. -/
def specialCases : List (String × String) :=
  [("is_nonempty", "is_non_empty"), ("lt", "LT"), ("lte", "LTE"),
   ("gt", "GT"), ("gte", "GTE")]

/-- `fn in specialCases ? specialCases[fn] : fn`. -/
def applySpecial (fn : String) : String :=
  ((specialCases.find? (fun p => p.1 = fn)).map (fun p => p.2)).getD fn

/-- JS `str.charAt(0).toUpperCase() + str.slice(1)`. -/
def capitalizeSeg (s : String) : String :=
  match s.toList with
  | [] => ""
  | c :: rest => String.mk (c.toUpper :: rest)

/-- JS `fn.split('_')` on the character list: `"".split('_')` is `[""]`,
consecutive separators yield empty segments. -/
def splitUnderscore : List Char → List (List Char)
  | [] => [[]]
  | c :: rest =>
      let r := splitUnderscore rest
      if c = '_' then [] :: r
      else
        match r with
        | [] => [[c]]
        | seg :: segs => (c :: seg) :: segs

/-- `fn.split('_').map(capitalize).join('')`. -/
def pascalCase (s : String) : String :=
  String.join ((splitUnderscore s.toList).map (fun seg => capitalizeSeg (String.mk seg)))

/-- `varArgsFunctions.includes(caller)`; the `caller` parameter is optional
(`undefined` when absent, modelled as `none`). -/
def callerIsVarArg : Option String → Bool
  | some c => varArgsFunctions.contains c
  | none => false

/-- Rendering of `Object.keys(s)` entries when `expr.object` is a string:
the own keys are the character indices and each value a one-character
string, which the renderer quotes. -/
def renderStringEntries (s : String) : String :=
  String.intercalate ", "
    (s.toList.enum.map
      (fun p => toString p.1 ++ ": \"" ++ String.mk [p.2] ++ "\""))

mutual

/-- `Expr.toString(expr, caller)`: the static renderer.  The first step
unwraps an `Expr` instance to its `.raw` form; the rest of the case
analysis is `exprToStringRaw`.  A `none` result models the `TypeError`
raised when `keys[0]` is `undefined` (object with no keys) or when
`Object.keys` is applied to `null`/`undefined`. -/
def exprToString : Raw → Option String → Option String
  | .expr r, caller => exprToStringRaw r caller
  | e, caller => exprToStringRaw e caller

/-- The body of `Expr.toString` after the one-step unwrap.  A doubly
wrapped `Expr` instance reaching this point is treated as a plain object
whose sole own key is `raw` (which is what `Object.keys` reports). -/
def exprToStringRaw : Raw → Option String → Option String
  | .str s, _ => some ("\"" ++ s ++ "\"")
  | .sym s, _ => some ("Symbol(" ++ s ++ ")")
  | .int n, _ => some (toString n)
  | .bool b, _ => some (if b then "true" else "false")
  | .undefinedV, _ => some "undefined"
  | .null, _ => some "null"
  | .arr xs, caller => do
      let parts ← exprToStringList xs
      let array := String.intercalate ", " parts
      pure (if callerIsVarArg caller then array else "[" ++ array ++ "]")
  | .expr r, _ => do
      let a ← exprToString r (some "Raw")
      pure ("Raw(" ++ a ++ ")")
  | .obj [], _ => none
  | .obj (("object", v0) :: _), _ =>
      match v0 with
      | .obj gs => do
          let parts ← exprToStringEntries gs
          pure ("\x7b" ++ String.intercalate ", " parts ++ "\x7d")
      | .null => none
      | .undefinedV => none
      | .arr xs => do
          let parts ← exprToStringIndexed 0 xs
          pure ("\x7b" ++ String.intercalate ", " parts ++ "\x7d")
      | .str s => some ("\x7b" ++ renderStringEntries s ++ "\x7d")
      | .int _ => some "\x7b\x7d"
      | .bool _ => some "\x7b\x7d"
      | .sym _ => some "\x7b\x7d"
      | .expr r => do
          let a ← exprToString r none
          pure ("\x7braw: " ++ a ++ "\x7d")
  | .obj ((k0, v0) :: rest), _ =>
      let fn := pascalCase (applySpecial k0)
      do
        let parts ← exprToStringArgs ((k0, v0) :: rest) fn
        pure (fn ++ "(" ++ String.intercalate ", " parts ++ ")")

/-- `expr.map(item => Expr.toString(item))` — elements rendered with no
caller. -/
def exprToStringList : List Raw → Option (List String)
  | [] => some []
  | x :: xs => do
      let a ← exprToString x none
      let as ← exprToStringList xs
      pure (a :: as)

/-- `Object.keys(expr.object).map(k => k + ': ' + Expr.toString(expr.object[k]))`. -/
def exprToStringEntries : List (String × Raw) → Option (List String)
  | [] => some []
  | (k, v) :: gs => do
      let a ← exprToString v none
      let as ← exprToStringEntries gs
      pure ((k ++ ": " ++ a) :: as)

/-- Same, when `expr.object` is an array: keys are the indices. -/
def exprToStringIndexed : Nat → List Raw → Option (List String)
  | _, [] => some []
  | i, x :: xs => do
      let a ← exprToString x none
      let as ← exprToStringIndexed (i + 1) xs
      pure ((toString i ++ ": " ++ a) :: as)

/-- `keys.map(k => Expr.toString(expr[k], fn))`. -/
def exprToStringArgs : List (String × Raw) → String → Option (List String)
  | [], _ => some []
  | (_, v) :: fs, fn => do
      let a ← exprToString v (some fn)
      let as ← exprToStringArgs fs fn
      pure (a :: as)

end

/-- Client-side error values (`errors.ts`): `InvalidValue` carries its
message; `InvalidArity` carries the declared `min`/`max` bounds (`none`
models the JS `null` used for an open bound) and the actual count. -/
inductive FaunaError where
  | invalidValue (message : String)
  | invalidArity (min : Option Nat) (max : Option Nat) (actual : Nat)

/-- The guard of `query.arity`: `(min !== null && args.length < min) ||
(max !== null && args.length > max)`. -/
def arityOutside (min max : Option Nat) (len : Nat) : Bool :=
  (match min with | some m => decide (len < m) | none => false)
    || (match max with | some m => decide (m < len) | none => false)

/-- `query.arity(min, max, args)`: throws `InvalidArity(min, max,
args.length)` when the count is below a declared `min` or above a declared
`max`. -/
def arityCheck (min max : Option Nat) (len : Nat) : Except FaunaError Unit :=
  if arityOutside min max len then .error (.invalidArity min max len)
  else .ok ()

/-- `arity.exact(n, args)`. -/
def arityExact (n len : Nat) : Except FaunaError Unit := arityCheck (some n) (some n) len

/-- `arity.min(n, args)`. -/
def arityMin (n len : Nat) : Except FaunaError Unit := arityCheck (some n) none len

/-- `arity.max(n, args)`. -/
def arityMax (n len : Nat) : Except FaunaError Unit := arityCheck none (some n) len

/-- `arity.between(min, max, args)`. -/
def arityBetween (min max len : Nat) : Except FaunaError Unit :=
  arityCheck (some min) (some max) len

/-- The value triple held by a `values.Ref`: `{id, class, database}` with
the latter two optional (`undefined` modelled as `none`). -/
inductive RefV where
  | mk (id : String) (cls : Option RefV) (database : Option RefV)

def RefV.id : RefV → String
  | .mk i _ _ => i

def RefV.cls : RefV → Option RefV
  | .mk _ c _ => c

def RefV.database : RefV → Option RefV
  | .mk _ _ d => d

/-- The `Ref` constructor: `if (!id) throw new errors.InvalidValue('id
cannot be null or undefined')`; `none` models a `null`/`undefined`
argument and the empty string is the other falsy string. -/
def mkRef (id : Option String) (cls database : Option RefV) : Except FaunaError RefV :=
  match id with
  | none => .error (.invalidValue "id cannot be null or undefined")
  | some s =>
      if s = "" then .error (.invalidValue "id cannot be null or undefined")
      else .ok (.mk s cls database)

mutual

/-- `Ref.prototype.equals(other)`: id equality, then the `class` clause,
then the `database` clause, with JS `&&` short-circuiting.  The argument
is `none` when the JS argument is not a `Ref` instance (the
`other instanceof Ref` guard).  `Except.error ()` models the TypeError
raised by field clauses (see `refFieldEq`). -/
def refEquals : RefV → Option RefV → Except Unit Bool
  | _, none => .ok false
  | .mk i c d, some (.mk i' c' d') =>
      if i = i' then
        (refFieldEq c c').bind (fun b1 => if b1 then refFieldEq d d' else .ok false)
      else .ok false
termination_by a _ => (sizeOf a, 1)

/-- The clause `(x === undefined && y === undefined) || x.equals(y)`
evaluated once for the `class` fields and once for the `database` fields:
both absent is `true`; receiver-side absent with the other side present
invokes `.equals` on `undefined` — a TypeError, `Except.error ()`. -/
def refFieldEq : Option RefV → Option RefV → Except Unit Bool
  | none, none => .ok true
  | none, some _ => .error ()
  | some x, y => refEquals x y
termination_by c _ => (sizeOf c, 0)

end

mutual

/-- Structural equality of `Ref` values as the specification words it:
ids equal, `class` fields both absent or recursively equal, `database`
fields both absent or recursively equal.  (Spec-side definition, used to
compare against `refEquals`.) -/
def refStructEq : RefV → RefV → Bool
  | .mk i c d, .mk i' c' d' =>
      i = i' && refFieldStructEq c c' && refFieldStructEq d d'
termination_by a _ => (sizeOf a, 1)

def refFieldStructEq : Option RefV → Option RefV → Bool
  | none, none => true
  | some x, some y => refStructEq x y
  | _, _ => false
termination_by c _ => (sizeOf c, 0)

end

/-- The string value held by a `values.FaunaTime`. -/
structure FaunaTimeV where
  value : String

/-- JS `s.charAt(i)`: the one-character string at index `i`, or `""` out of
range (including the `charAt(-1)` produced by an empty input, since the
index is `length - 1` in the constructor). -/
def charAt (s : String) (i : Nat) : String :=
  match s.toList.get? i with
  | some c => String.mk [c]
  | none => ""

/-- The `FaunaTime` constructor on a string argument: accepts the value
verbatim when `value.charAt(value.length - 1) === 'Z'`, otherwise throws
`InvalidValue`. -/
def mkFaunaTime (s : String) : Except FaunaError FaunaTimeV :=
  if charAt s (s.length - 1) = "Z" then .ok ⟨s⟩
  else .error (.invalidValue ("Only allowed timezone is 'Z', got: " ++ s))

/-- `FaunaTime.prototype.toJSON`: the single-key wire object `{"@ts": value}`. -/
def timeToJSON (t : FaunaTimeV) : Wire := .obj [("@ts", .str t.value)]

/-! ## Pagination helper (`PageHelper.ts`)

JS object state: `params` is an ordered association list (a copy of the
construction parameters after cursor extraction); `before`/`after` hold
`Raw.undefinedV` when unset, mirroring the `undefined` initialisers.  The
mutable `_faunaFunctions` array is modelled through a store: each array
lives at an index of a `Store`, and a helper holds the index.  `_clone`
copies the index (the very same array object), it does not copy the array;
it also fails to copy `params` (the `Object.create` descriptor map names
only `client`, `set`, `_faunaFunctions`, `before` and `after`), so on a
clone the `params` own property is absent (`none`), and
`Object.assign(opts, undefined)` later treats it as an empty map. -/

/-- `cursor !== undefined`. -/
def isUndefinedV : Raw → Bool
  | .undefinedV => true
  | _ => false

/-- Property read on a JS object (first matching key of the ordered field
list). -/
def lookupKey (fs : List (String × Raw)) (k : String) : Option Raw :=
  (fs.find? (fun p => p.1 = k)).map (fun p => p.2)

/-- `k in obj`. -/
def hasKey (fs : List (String × Raw)) (k : String) : Bool :=
  fs.any (fun p => p.1 = k)

/-- `delete obj[k]`. -/
def objDelete (fs : List (String × Raw)) (k : String) : List (String × Raw) :=
  fs.filter (fun p => p.1 ≠ k)

/-- `obj[k] = v`: replaces the value in place when the key is present,
appends the key otherwise (JS property-assignment order semantics). -/
def objSet (fs : List (String × Raw)) (k : String) (v : Raw) : List (String × Raw) :=
  if hasKey fs k then fs.map (fun p => if p.1 = k then (k, v) else p)
  else fs ++ [(k, v)]

/-- `Object.assign(base, extra)`: assigns every field of `extra` onto
`base`, in order. -/
def objAssign (base extra : List (String × Raw)) : List (String × Raw) :=
  extra.foldl (fun acc p => objSet acc p.1 p.2) base

/-- A deferred transform pushed by `map`/`filter`: `q => query.Map(q,
lambda)` resp. `q => query.Filter(q, lambda)`. -/
inductive Transform where
  | mapT (lambda : Raw)
  | filterT (lambda : Raw)

/-- `query.Map(collection, lambda)` / `query.Filter(collection, lambda)`
applied to the accumulated query (both constructors pass `arity.exact(2)`
trivially here). -/
def applyTransform : Transform → Raw → Raw
  | .mapT l, q => .expr (.obj [("map", wrap l), ("collection", wrap q)])
  | .filterT l, q => .expr (.obj [("filter", wrap l), ("collection", wrap q)])

/-- The heap of `_faunaFunctions` arrays; a helper's `fnsId` indexes into
it. -/
abbrev Store := List (List Transform)

/-- The observable state of a `PageHelper` object. -/
structure PageHelper where
  set : Raw
  params : Option (List (String × Raw))
  before : Raw
  after : Raw
  fnsId : Nat

/-- The transform chain a helper currently sees. -/
def chainOf (store : Store) (h : PageHelper) : List Transform :=
  (store[h.fnsId]?).getD []

/-- `array.push(t)` on the array at index `i` of the store. -/
def storePush (store : Store) (i : Nat) (t : Transform) : Store :=
  store.set i ((store[i]?).getD [] ++ [t])

/-- The `PageHelper` constructor: copies `params`, then pins `before` when
present (deleting it from the copy), otherwise pins `after` when present
(deleting it from the copy).  Allocates a fresh empty `_faunaFunctions`
array. -/
def phInit (s : Raw) (params : List (String × Raw)) (store : Store) :
    PageHelper × Store :=
  let h : PageHelper :=
    if hasKey params "before" then
      { set := s, params := some (objDelete params "before"),
        before := (lookupKey params "before").getD .undefinedV,
        after := .undefinedV, fnsId := store.length }
    else if hasKey params "after" then
      { set := s, params := some (objDelete params "after"),
        before := .undefinedV,
        after := (lookupKey params "after").getD .undefinedV, fnsId := store.length }
    else
      { set := s, params := some params, before := .undefinedV, after := .undefinedV,
        fnsId := store.length }
  (h, store ++ [[]])

/-- `PageHelper.prototype._clone()`: `Object.create` with `client`, `set`,
`_faunaFunctions` (same array reference), `before` and `after`; `params`
is not among the copied descriptors. -/
def phClone (h : PageHelper) : PageHelper :=
  { set := h.set, params := none, before := h.before, after := h.after,
    fnsId := h.fnsId }

/-- `map(lambda)`: clone, then push a Map wrapper onto the clone's (shared)
`_faunaFunctions` array. -/
def phMap (h : PageHelper) (lambda : Raw) (store : Store) : PageHelper × Store :=
  let rv := phClone h
  (rv, storePush store rv.fnsId (.mapT lambda))

/-- `filter(lambda)`: clone, then push a Filter wrapper onto the clone's
(shared) `_faunaFunctions` array. -/
def phFilter (h : PageHelper) (lambda : Raw) (store : Store) : PageHelper × Store :=
  let rv := phClone h
  (rv, storePush store rv.fnsId (.filterT lambda))

/-- The `opts` object `_retrieveNextPage(cursor, reverse)` builds:
`Object.assign({}, this.params)`, then the cursor assignment (`before`
when reversing, `after` otherwise; a reverse fetch with no cursor pins
`before = null`). -/
def retrieveOpts (h : PageHelper) (cursor : Raw) (reverse : Bool) :
    List (String × Raw) :=
  let opts := h.params.getD []
  if !isUndefinedV cursor then
    if reverse then objSet opts "before" cursor else objSet opts "after" cursor
  else
    if reverse then objSet opts "before" .null else opts

/-- `query.Paginate(set, opts)`: `Object.assign({paginate: wrap(set)},
wrapValues(opts))`. -/
def paginateQ (s : Raw) (opts : List (String × Raw)) : Raw :=
  .expr (.obj (objAssign [("paginate", wrap s)] (wrapValues opts)))

/-- `_retrieveNextPage(cursor, reverse)`: the query expression handed to
`client.query` — the paginate expression threaded through the transform
chain in push order. -/
def retrieveNextPage (h : PageHelper) (store : Store) (cursor : Raw)
    (reverse : Bool) : Raw :=
  (chainOf store h).foldl (fun q t => applyTransform t q)
    (paginateQ h.set (retrieveOpts h cursor reverse))

/-- A decoded page response: `data` plus optional `before`/`after` cursors
(`Raw.undefinedV` models an absent field). -/
structure PageResp where
  data : Raw
  before : Raw
  after : Raw

/-- `_adjustCursors(page)`: overwrite each cursor the response reports,
then return `page.data`. -/
def adjustCursors (h : PageHelper) (page : PageResp) : PageHelper × Raw :=
  let h1 := if !isUndefinedV page.after then { h with after := page.after } else h
  let h2 := if !isUndefinedV page.before then { h1 with before := page.before } else h1
  (h2, page.data)

/-- The helper state after a sequence of successful `nextPage()` (or
`previousPage()`) calls answered by the given responses; each call ends in
`_adjustCursors`. -/
def nextPages (h : PageHelper) (resps : List PageResp) : PageHelper :=
  resps.foldl (fun s r => (adjustCursors s r).1) h

/-- `_consumePages(lambda, reverse)` driven by a script of responses: the
callback receives each page's `data`; the recursion continues while the
response reports a cursor in the traversal direction.  The helper state is
threaded explicitly; the source never assigns to it on this path. -/
def consumePagesRun (h : PageHelper) (reverse : Bool) :
    List PageResp → PageHelper × List Raw
  | [] => (h, [])
  | r :: rest =>
      let nextCursor := if reverse then r.before else r.after
      if !isUndefinedV nextCursor then
        let k := consumePagesRun h reverse rest
        (k.1, r.data :: k.2)
      else (h, [r.data])

/-- `each(lambda)`: first fetch with the `after` cursor, then consume
forward. -/
def eachRun (h : PageHelper) (resps : List PageResp) : PageHelper × List Raw :=
  consumePagesRun h false resps

/-- `eachReverse(lambda)`: first fetch with the `before` cursor, then
consume backward. -/
def eachReverseRun (h : PageHelper) (resps : List PageResp) : PageHelper × List Raw :=
  consumePagesRun h true resps

/-! ## Ground evaluations and unfolding lemmas -/

example : wrap (.obj [("a", .int 1)]) =
    .expr (.obj [("object", .obj [("a", .int 1)])]) := rfl

example : encode (wrap (.obj [("a", .int 1)])) =
    some (.obj [("object", .obj [("a", .int 1)])]) := rfl

example :
    exprToString
      (.expr (.obj [("lambda", .str "x"), ("expr", .expr (.obj [("var", .str "x")]))]))
      none = some "Lambda(\"x\", Var(\"x\"))" := by
  simp [exprToString, exprToStringRaw, exprToStringList, exprToStringArgs,
    callerIsVarArg, varArgsFunctions]
  rfl

example :
    exprToString
      (.expr (.obj [("union", .arr [.expr (.obj [("var", .str "x")]),
                                    .expr (.obj [("var", .str "y")])])]))
      none = some "Union(Var(\"x\"), Var(\"y\"))" := by
  simp [exprToString, exprToStringRaw, exprToStringList, exprToStringArgs,
    callerIsVarArg, varArgsFunctions]
  rfl

example :
    exprToString
      (.expr (.obj [("lambda", .arr [.str "x", .str "y"]),
                    ("expr", .expr (.obj [("union", .arr [.int 1, .int 2])]))]))
      none = some "Lambda([\"x\", \"y\"], Union(1, 2))" := by
  simp [exprToString, exprToStringRaw, exprToStringList, exprToStringArgs,
    callerIsVarArg, varArgsFunctions]
  rfl

example :
    exprToString (.expr (.obj [("is_nonempty", .int 3)])) none =
      some "IsNonEmpty(3)" := by
  simp [exprToString, exprToStringRaw, exprToStringList, exprToStringArgs,
    callerIsVarArg, varArgsFunctions]
  rfl

example :
    exprToString (.expr (.obj [("gt", .arr [.int 1, .int 2])])) none =
      some "GT(1, 2)" := by
  simp [exprToString, exprToStringRaw, exprToStringList, exprToStringArgs,
    callerIsVarArg, varArgsFunctions]
  rfl

theorem refEquals_none (a : RefV) : refEquals a none = .ok false := by
  cases a
  rw [refEquals.eq_def]

theorem refEquals_mk_mk (i i' : String) (c c' d d' : Option RefV) :
    refEquals (.mk i c d) (some (.mk i' c' d')) =
      if i = i' then
        (refFieldEq c c').bind (fun b1 => if b1 then refFieldEq d d' else .ok false)
      else .ok false := by
  rw [refEquals.eq_def]

theorem refStructEq_mk_mk (i i' : String) (c c' d d' : Option RefV) :
    refStructEq (.mk i c d) (.mk i' c' d') =
      (decide (i = i') && refFieldStructEq c c' && refFieldStructEq d d') := by
  rw [refStructEq.eq_def]

example : mkFaunaTime "1970-01-01T00:00:00.123456789Z" =
    .ok ⟨"1970-01-01T00:00:00.123456789Z"⟩ := rfl

example : mkFaunaTime "1970-01-01T00:00:00.000+04:00" =
    .error (.invalidValue
      "Only allowed timezone is 'Z', got: 1970-01-01T00:00:00.000+04:00") := rfl

/-! ## Helper lemmas -/

theorem get?_length_sub_one_eq_getLast? {α : Type} :
    ∀ l : List α, l.get? (l.length - 1) = l.getLast?
  | [] => rfl
  | [a] => rfl
  | a :: b :: t => by
      have ih := get?_length_sub_one_eq_getLast? (b :: t)
      simp only [List.length_cons, Nat.add_sub_cancel] at ih ⊢
      simpa [List.getLast?] using ih

theorem charAt_last_iff (s : String) :
    charAt s (s.length - 1) = "Z" ↔ s.toList.getLast? = some 'Z' := by
  unfold charAt
  have hlen : s.length = s.toList.length := rfl
  rw [hlen, get?_length_sub_one_eq_getLast?]
  cases h : s.toList.getLast? with
  | none => simp
  | some c =>
      constructor
      · intro hc
        have : c = 'Z' := by
          have := congrArg String.toList hc
          simpa using this
        rw [this]
      · intro hc
        have : c = 'Z' := by simpa using hc
        rw [this]

/-! ## Claim theorems -/

theorem arityOutside_eq_true_iff (min max : Option Nat) (len : Nat) :
    arityOutside min max len = true ↔
      (∃ m, min = some m ∧ len < m) ∨ (∃ m, max = some m ∧ m < len) := by
  rcases min with _ | m <;> rcases max with _ | M <;> simp [arityOutside]

/-- C7: for every declared argument-count bound pair, a count outside the
bounds makes `arity` throw `InvalidArity` carrying exactly the declared
lower bound, the declared upper bound and the actual count, and a count
within bounds never throws. -/
theorem c7_arity_enforcement :
    ∀ (min max : Option Nat) (len : Nat),
      (((∃ m, min = some m ∧ len < m) ∨ (∃ m, max = some m ∧ m < len)) ↔
        arityCheck min max len = .error (.invalidArity min max len))
      ∧ (∀ e, arityCheck min max len = .error e → e = .invalidArity min max len)
      ∧ (¬ ((∃ m, min = some m ∧ len < m) ∨ (∃ m, max = some m ∧ m < len)) →
          arityCheck min max len = .ok ()) := by
  intro min max len
  have hb := arityOutside_eq_true_iff min max len
  refine ⟨⟨fun h => ?_, fun h => ?_⟩, fun e he => ?_, fun hn => ?_⟩
  · unfold arityCheck
    rw [if_pos (hb.mpr h)]
  · unfold arityCheck at h
    split at h
    · rename_i hc
      exact hb.mp hc
    · cases h
  · unfold arityCheck at he
    split at he
    · cases he
      rfl
    · cases he
  · unfold arityCheck
    rw [if_neg (fun hc => hn (hb.mp hc))]

/-- C8: `Ref` construction throws `InvalidValue` exactly for an absent or
empty id; any non-empty id constructs successfully with that id, so every
constructed `Ref` has a non-empty id. -/
theorem c8_ref_id_nonempty :
    ∀ (id : Option String) (cls db : Option RefV),
      (mkRef id cls db = .error (.invalidValue "id cannot be null or undefined") ↔
        id = none ∨ id = some "")
      ∧ (∀ s, id = some s → s ≠ "" → mkRef id cls db = .ok (.mk s cls db))
      ∧ (∀ r, mkRef id cls db = .ok r → r.id ≠ "") := by
  intro id cls db
  rcases id with _ | s
  · refine ⟨?_, ?_, ?_⟩
    · simp [mkRef]
    · intro s h
      cases h
    · intro r h
      cases h
  · by_cases hs : s = ""
    · subst hs
      refine ⟨by simp [mkRef], ?_, ?_⟩
      · intro t ht hne
        cases ht
        exact absurd rfl hne
      · intro r h
        simp [mkRef] at h
    · refine ⟨?_, ?_, ?_⟩
      · simp [mkRef, hs]
      · intro t ht hne
        cases ht
        simp [mkRef, hs]
      · intro r h
        simp [mkRef, hs] at h
        rw [← h]
        simpa [RefV.id] using hs

/-- C9: building a `FaunaTime` from a string fails with `InvalidValue`
exactly when the string does not end in the `Z` suffix; otherwise the
string is stored verbatim and the value encodes as `{"@ts": value}`. -/
theorem c9_fauna_time_z_suffix :
    ∀ s : String,
      (s.toList.getLast? = some 'Z' → mkFaunaTime s = .ok ⟨s⟩)
      ∧ (s.toList.getLast? ≠ some 'Z' →
          mkFaunaTime s =
            .error (.invalidValue ("Only allowed timezone is 'Z', got: " ++ s)))
      ∧ (∀ t, mkFaunaTime s = .ok t →
          t.value = s ∧ timeToJSON t = .obj [("@ts", .str s)]) := by
  intro s
  refine ⟨?_, ?_, ?_⟩
  · intro hz
    unfold mkFaunaTime
    rw [if_pos ((charAt_last_iff s).mpr hz)]
  · intro hz
    unfold mkFaunaTime
    rw [if_neg (fun hc => hz ((charAt_last_iff s).mp hc))]
  · intro t ht
    unfold mkFaunaTime at ht
    split at ht
    · cases ht
      exact ⟨rfl, rfl⟩
    · cases ht

/-- C10: `each` and `eachReverse` never modify the helper's stored
`before`/`after` cursors: after a traversal driven by any script of page
responses (hence at every intermediate point, since every suffix is also a
script) the cursors equal their initial values. -/
theorem c10_each_preserves_cursors :
    ∀ (h : PageHelper) (resps : List PageResp),
      (eachRun h resps).1 = h ∧ (eachReverseRun h resps).1 = h := by
  have key : ∀ (h : PageHelper) (rev : Bool) (resps : List PageResp),
      (consumePagesRun h rev resps).1 = h := by
    intro h rev resps
    induction resps with
    | nil => rfl
    | cons r rest ih =>
        simp only [consumePagesRun]
        split <;> split <;> simp [ih]
  intro h resps
  exact ⟨key h false resps, key h true resps⟩

theorem refFieldEq_unfold (c c' : Option RefV) :
    refFieldEq c c' =
      match c, c' with
      | none, none => .ok true
      | none, some _ => .error ()
      | some x, y => refEquals x y := by
  rw [refFieldEq.eq_def]

theorem refFieldStructEq_unfold (c c' : Option RefV) :
    refFieldStructEq c c' =
      match c, c' with
      | none, none => true
      | some x, some y => refStructEq x y
      | _, _ => false := by
  rw [refFieldStructEq.eq_def]

theorem refEquals_field_ok :
    ∀ n : Nat,
      (∀ (a b : RefV), sizeOf a ≤ n → refEquals a (some b) ≠ .error () →
        refEquals a (some b) = .ok (refStructEq a b))
      ∧ (∀ (c c' : Option RefV), sizeOf c ≤ n → refFieldEq c c' ≠ .error () →
        refFieldEq c c' = .ok (refFieldStructEq c c')) := by
  intro n
  induction n with
  | zero =>
      constructor
      · intro a b hsz
        obtain ⟨i, c, d⟩ := a
        simp at hsz
      · intro c c' hsz
        rcases c with _ | x <;> simp at hsz
  | succ n ih =>
      obtain ⟨ihE, ihF⟩ := ih
      constructor
      · intro a b hsz hne
        obtain ⟨i, c, d⟩ := a
        obtain ⟨i', c', d'⟩ := b
        rw [refEquals_mk_mk] at hne ⊢
        by_cases hi : i = i'
        · rw [if_pos hi] at hne ⊢
          have hszc : sizeOf c ≤ n := by simp at hsz; omega
          have hszd : sizeOf d ≤ n := by simp at hsz; omega
          rcases hc : refFieldEq c c' with e | b1
          · rw [hc] at hne
            obtain ⟨⟩ := e
            simp [Except.bind] at hne
          · have hb1 : b1 = refFieldStructEq c c' := by
              have hf := ihF c c' hszc (by rw [hc]; exact fun h => nomatch h)
              rw [hc] at hf
              simpa using hf
            simp only [Except.bind]
            cases b1 with
            | false =>
                rw [refStructEq_mk_mk, ← hb1]
                simp [hi]
            | true =>
                rcases hd : refFieldEq d d' with e | b2
                · obtain ⟨⟩ := e
                  rw [hc] at hne
                  simp [Except.bind, hd] at hne
                · have hb2 : b2 = refFieldStructEq d d' := by
                    have hf := ihF d d' hszd (by rw [hd]; exact fun h => nomatch h)
                    rw [hd] at hf
                    simpa using hf
                  rw [refStructEq_mk_mk, ← hb1, ← hb2]
                  simp [hi]
        · rw [if_neg hi] at hne ⊢
          rw [refStructEq_mk_mk]
          simp [hi]
      · intro c c' hsz hne
        rcases c with _ | x
        · rcases c' with _ | y
          · simp [refFieldEq_unfold, refFieldStructEq_unfold]
          · rw [refFieldEq_unfold] at hne
            simp at hne
        · rcases c' with _ | y
          · simp only [refFieldEq_unfold, refFieldStructEq_unfold]
            exact refEquals_none x
          · have hszx : sizeOf x ≤ n := by simp at hsz; omega
            simp only [refFieldEq_unfold] at hne ⊢
            simp only [refFieldStructEq_unfold]
            exact ihE x y hszx hne

/-- C5 (counterexample): `Ref.equals` is not total.  When the receiver has
no `class` field and the argument has one (ids equal), the source
evaluates `this.class.equals(other.class)` with `this.class` being
`undefined`, raising a TypeError instead of returning `false`. -/
theorem c5_counterexample_equals_raises :
    refEquals (.mk "c" none none)
      (some (.mk "c" (some (.mk "classes" none none)) none)) = .error () := by
  simp [refEquals_mk_mk, refFieldEq_unfold, Except.bind]

/-- C5 (amended): whenever `Ref.equals` returns at all, it returns exactly
structural equality (ids equal, `class`/`database` both absent or
recursively equal); but it is not total — with equal ids, a receiver
without a `class` field and an argument with one make it raise a
TypeError instead of returning `false`. -/
theorem c5_ref_equals_structural :
    ∀ (a b : RefV),
      (refEquals a (some b) ≠ .error () →
        refEquals a (some b) = .ok (refStructEq a b))
      ∧ (a.id = b.id → a.cls = none → (∃ y, b.cls = some y) →
          refEquals a (some b) = .error ()) := by
  intro a b
  constructor
  · exact (refEquals_field_ok (sizeOf a)).1 a b (Nat.le_refl _)
  · intro hid hcls hy
    obtain ⟨i, c, d⟩ := a
    obtain ⟨i', c', d'⟩ := b
    obtain ⟨y, hy⟩ := hy
    simp [RefV.id] at hid
    simp [RefV.cls] at hcls hy
    subst hid
    subst hcls
    subst hy
    rw [refEquals_mk_mk, if_pos rfl, refFieldEq_unfold]
    simp [Except.bind]

/-- C5 witness: the amended theorem applied at concrete inputs — a
successful structural comparison through a recursive `class` field, and a
raising comparison. -/
theorem c5_witness :
    refEquals (.mk "a" (some (.mk "classes" none none)) none)
        (some (.mk "a" (some (.mk "classes" none none)) none)) = .ok true
    ∧ refEquals (.mk "w" none none)
        (some (.mk "w" (some (.mk "x" none none)) none)) = .error () := by
  constructor
  · have hcomp : refEquals (.mk "a" (some (.mk "classes" none none)) none)
        (some (.mk "a" (some (.mk "classes" none none)) none)) = .ok true := by
      simp [refEquals_mk_mk, refFieldEq_unfold, Except.bind]
    have h := (c5_ref_equals_structural
        (.mk "a" (some (.mk "classes" none none)) none)
        (.mk "a" (some (.mk "classes" none none)) none)).1
      (by rw [hcomp]; exact fun hh => nomatch hh)
    rw [h, refStructEq_mk_mk]
    simp [refFieldStructEq_unfold, refStructEq_mk_mk]
  · exact (c5_ref_equals_structural
        (.mk "w" none none)
        (.mk "w" (some (.mk "x" none none)) none)).2 rfl rfl ⟨_, rfl⟩

theorem wrapValues_eq_map (fs : List (String × Raw)) :
    wrapValues fs = fs.map (fun p => (p.1, wrap p.2)) := by
  induction fs with
  | nil => simp [wrapValues]
  | cons p fs ih =>
      obtain ⟨k, v⟩ := p
      simp [wrapValues, ih]

theorem encodeFields_mem :
    ∀ (fs : List (String × Raw)) (k : String) (w : Wire),
      (k, w) ∈ encodeFields fs → ∃ v, (k, v) ∈ fs := by
  intro fs
  induction fs with
  | nil =>
      intro k w h
      simp [encodeFields] at h
  | cons p fs ih =>
      obtain ⟨k', v'⟩ := p
      intro k w h
      rcases he : encode v' with _ | w'
      · simp only [encodeFields, he] at h
        obtain ⟨v, hv⟩ := ih k w h
        exact ⟨v, List.mem_cons_of_mem _ hv⟩
      · simp only [encodeFields, he] at h
        rcases List.mem_cons.mp h with h | h
        · have hk : k = k' := congrArg Prod.fst h
          refine ⟨v', ?_⟩
          rw [hk]
          exact List.mem_cons_self _ _
        · obtain ⟨v, hv⟩ := ih k w h
          exact ⟨v, List.mem_cons_of_mem _ hv⟩

theorem encode_wrap_obj (m : List (String × Raw)) :
    encode (wrap (.obj m)) =
      some (.obj [("object", .obj (encodeFields (wrapValues m)))]) := by
  simp [wrap, encode, encodeFields]

/-- C2: wrapping a plain keyed mapping escapes it under the single
`"object"` tag, preserving the keys and wrapping each value; the encoded
form is therefore distinct from the encoding of any function-call node
(an `Expr` whose raw form is a mapping headed by a tag other than
`"object"` and containing no `"object"` field). -/
theorem c2_object_escape :
    ∀ (m : List (String × Raw)) (t : String) (v : Raw) (rest : List (String × Raw)),
      wrap (.obj m) =
        .expr (.obj [("object", .obj (m.map (fun p => (p.1, wrap p.2))))])
      ∧ (t ≠ "object" → "object" ∉ (((t, v) :: rest).map Prod.fst) →
          encode (wrap (.obj m)) ≠ encode (.expr (.obj ((t, v) :: rest)))) := by
  intro m t v rest
  constructor
  · rw [← wrapValues_eq_map]
    simp [wrap]
  · intro ht hobj heq
    rw [encode_wrap_obj] at heq
    have henc : encode (.expr (.obj ((t, v) :: rest))) =
        some (.obj (encodeFields ((t, v) :: rest))) := by
      simp [encode]
    rw [henc] at heq
    have hfields : [(("object" : String),
        Wire.obj (encodeFields (wrapValues m)))] = encodeFields ((t, v) :: rest) := by
      have h1 := Option.some.inj heq
      exact Wire.obj.inj h1
    have hmem : (("object" : String), Wire.obj (encodeFields (wrapValues m))) ∈
        encodeFields ((t, v) :: rest) := by
      rw [← hfields]
      exact List.mem_cons_self _ _
    obtain ⟨v', hv'⟩ := encodeFields_mem _ _ _ hmem
    apply hobj
    exact List.mem_map_of_mem Prod.fst hv'

/-- C2 witness: the theorem at a concrete mapping whose key collides with
the `paginate` function tag. -/
theorem c2_witness :
    wrap (.obj [("paginate", .int 1)]) =
      .expr (.obj [("object", .obj [("paginate", .int 1)])])
    ∧ encode (wrap (.obj [("paginate", .int 1)])) ≠
        encode (.expr (.obj [("paginate", .int 1)])) := by
  constructor
  · have h := (c2_object_escape [("paginate", .int 1)] "paginate" (.int 1) []).1
    simpa [wrap] using h
  · exact (c2_object_escape [("paginate", .int 1)] "paginate" (.int 1) []).2
      (by decide) (by simp)

theorem intercalate_pair (x y : String) :
    String.intercalate ", " [x, y] = x ++ ", " ++ y := rfl

theorem exprToString_arr_pair (a b : Raw) (c : Option String) :
    exprToString (.expr (.arr [a, b])) c =
      (exprToString a none).bind (fun ra =>
        (exprToString b none).bind (fun rb =>
          some (if callerIsVarArg c then ra ++ ", " ++ rb
                else "[" ++ (ra ++ ", " ++ rb) ++ "]"))) := by
  simp only [exprToString, exprToStringRaw, exprToStringList]
  cases exprToString a none <;> cases exprToString b none <;>
    simp [Option.bind, intercalate_pair]

/-- C6: the wrapped two-element sequence `[a, b]` rendered as the argument
of a variadic caller tag is the comma join of the element renderings with
no enclosing brackets; under any non-variadic caller, or with no caller,
the brackets are kept.  (`Option.bind` threads the renderer's possible
TypeError through both sides.) -/
theorem c6_vararg_symmetry :
    ∀ (a b : Raw) (t : String),
      (t ∈ varArgsFunctions →
        exprToString (wrap (.arr [a, b])) (some t) =
          (exprToString (wrap a) none).bind (fun ra =>
            (exprToString (wrap b) none).bind (fun rb =>
              some (ra ++ ", " ++ rb))))
      ∧ (t ∉ varArgsFunctions →
        exprToString (wrap (.arr [a, b])) (some t) =
          (exprToString (wrap a) none).bind (fun ra =>
            (exprToString (wrap b) none).bind (fun rb =>
              some ("[" ++ (ra ++ ", " ++ rb) ++ "]"))))
      ∧ (exprToString (wrap (.arr [a, b])) none =
          (exprToString (wrap a) none).bind (fun ra =>
            (exprToString (wrap b) none).bind (fun rb =>
              some ("[" ++ (ra ++ ", " ++ rb) ++ "]")))) := by
  intro a b t
  have harr : wrap (.arr [a, b]) = .expr (.arr [wrap a, wrap b]) := by
    simp [wrap, wrapList]
  refine ⟨fun ht => ?_, fun ht => ?_, ?_⟩
  · rw [harr, exprToString_arr_pair]
    have hc : callerIsVarArg (some t) = true := by
      simp [callerIsVarArg, List.contains, List.elem_iff, ht]
    simp [hc]
  · rw [harr, exprToString_arr_pair]
    have hc : callerIsVarArg (some t) = false := by
      simp [callerIsVarArg, List.contains, List.elem_iff, ht]
    simp [hc]
  · rw [harr, exprToString_arr_pair]
    simp [callerIsVarArg]

/-- C6 witness: the theorem at concrete inputs — `Union` omits the
brackets, `Lambda` and the absent caller keep them. -/
theorem c6_witness :
    exprToString (wrap (.arr [.int 1, .int 2])) (some "Union") = some "1, 2"
    ∧ exprToString (wrap (.arr [.int 1, .int 2])) (some "Lambda") =
        some "[1, 2]"
    ∧ exprToString (wrap (.arr [.int 1, .int 2])) none = some "[1, 2]" := by
  refine ⟨?_, ?_, ?_⟩
  · have h := (c6_vararg_symmetry (.int 1) (.int 2) "Union").1 (by decide)
    rw [h]
    simp [wrap, exprToString, exprToStringRaw]
    rfl
  · have h := (c6_vararg_symmetry (.int 1) (.int 2) "Lambda").2.1 (by decide)
    rw [h]
    simp [wrap, exprToString, exprToStringRaw]
    rfl
  · have h := (c6_vararg_symmetry (.int 1) (.int 2) "Lambda").2.2
    rw [h]
    simp [wrap, exprToString, exprToStringRaw]
    rfl

/-- C7 witness: the theorem at concrete bounds — three arguments against
an exact-2 constructor throw `InvalidArity(2, 2, 3)`, two succeed. -/
theorem c7_witness :
    arityCheck (some 2) (some 2) 3 = .error (.invalidArity (some 2) (some 2) 3)
    ∧ arityCheck (some 2) (some 2) 2 = .ok () := by
  constructor
  · exact (c7_arity_enforcement (some 2) (some 2) 3).1.mp
      (Or.inr ⟨2, rfl, by decide⟩)
  · refine (c7_arity_enforcement (some 2) (some 2) 2).2.2 ?_
    rintro (⟨m, hm, h⟩ | ⟨m, hm, h⟩) <;> cases hm <;> omega

/-- C8 witness: the theorem at a concrete non-empty id. -/
theorem c8_witness :
    mkRef (some "widgets") none none = .ok (.mk "widgets" none none) :=
  (c8_ref_id_nonempty (some "widgets") none none).2.1 "widgets" rfl (by decide)

/-- C9 witness: the theorem at the spec's concrete scenarios — the
sub-millisecond UTC string is accepted verbatim and a `+04:00` offset is
rejected. -/
theorem c9_witness :
    mkFaunaTime "1970-01-01T00:00:00.123456789Z" =
      .ok ⟨"1970-01-01T00:00:00.123456789Z"⟩
    ∧ mkFaunaTime "1970-01-01T00:00:00.000+04:00" =
        .error (.invalidValue
          "Only allowed timezone is 'Z', got: 1970-01-01T00:00:00.000+04:00") := by
  constructor
  · exact (c9_fauna_time_z_suffix "1970-01-01T00:00:00.123456789Z").1 (by decide)
  · have h := (c9_fauna_time_z_suffix "1970-01-01T00:00:00.000+04:00").2.1
      (by decide)
    simpa using h

/-! ## Association-list lemmas for the JS object model -/

theorem lookupKey_none_of_not_hasKey :
    ∀ (fs : List (String × Raw)) (k : String),
      hasKey fs k = false → lookupKey fs k = none := by
  intro fs k
  induction fs with
  | nil => intro _; rfl
  | cons p fs ih =>
      obtain ⟨k0, v0⟩ := p
      intro h
      simp [hasKey] at h
      have htail := ih (by simp [hasKey]; exact h.2)
      simp only [lookupKey, List.find?]
      rw [show (decide (k0 = k)) = false by simpa using h.1]
      simpa [lookupKey] using htail

theorem lookupKey_map_replace :
    ∀ (fs : List (String × Raw)) (k : String) (v : Raw),
      hasKey fs k = true →
      lookupKey (fs.map (fun p => if p.1 = k then (k, v) else p)) k = some v := by
  intro fs k v
  induction fs with
  | nil => intro h; simp [hasKey] at h
  | cons p fs ih =>
      obtain ⟨k0, v0⟩ := p
      intro h
      by_cases h0 : k0 = k
      · simp only [List.map_cons, if_pos h0]
        simp [lookupKey, List.find?]
      · simp [hasKey, h0] at h
        simp only [List.map_cons, if_neg h0]
        simp only [lookupKey, List.find?]
        rw [show (decide (k0 = k)) = false by simpa using h0]
        exact ih (by simp [hasKey, h])

theorem lookupKey_append_single :
    ∀ (fs : List (String × Raw)) (k : String) (v : Raw),
      hasKey fs k = false → lookupKey (fs ++ [(k, v)]) k = some v := by
  intro fs k v
  induction fs with
  | nil =>
      intro _
      simp [lookupKey, List.find?]
  | cons p fs ih =>
      obtain ⟨k0, v0⟩ := p
      intro h
      simp [hasKey] at h
      simp only [List.cons_append, lookupKey, List.find?]
      rw [show (decide (k0 = k)) = false by simpa using h.1]
      have := ih (by simp [hasKey]; exact h.2)
      simpa [lookupKey] using this

theorem lookupKey_objSet_self (fs : List (String × Raw)) (k : String) (v : Raw) :
    lookupKey (objSet fs k v) k = some v := by
  unfold objSet
  by_cases hk : hasKey fs k
  · rw [if_pos hk]
    exact lookupKey_map_replace fs k v hk
  · rw [if_neg hk]
    exact lookupKey_append_single fs k v (by simpa using hk)

theorem lookupKey_objDelete_ne :
    ∀ (fs : List (String × Raw)) (k kd : String), k ≠ kd →
      lookupKey (objDelete fs kd) k = lookupKey fs k := by
  intro fs k kd hne
  induction fs with
  | nil => rfl
  | cons p fs ih =>
      obtain ⟨k0, v0⟩ := p
      by_cases h0 : k0 = kd
      · subst h0
        have hk0 : (decide (k0 = k)) = false := by
          simp
          exact fun h => hne h.symm
        simp only [objDelete, List.filter]
        rw [show (decide (k0 ≠ k0)) = false by simp]
        simp only [lookupKey, List.find?]
        rw [hk0]
        simpa [objDelete, lookupKey] using ih
      · simp only [objDelete, List.filter]
        rw [show (decide (k0 ≠ kd)) = true by simpa using h0]
        by_cases hk0 : k0 = k
        · simp [lookupKey, List.find?, hk0]
        · simp only [lookupKey, List.find?]
          rw [show (decide (k0 = k)) = false by simpa using hk0]
          simpa [objDelete, lookupKey] using ih

theorem adjustCursors_after (s : PageHelper) (r : PageResp) :
    (adjustCursors s r).1.after = if isUndefinedV r.after then s.after else r.after := by
  unfold adjustCursors
  by_cases ha : isUndefinedV r.after <;> by_cases hb : isUndefinedV r.before <;>
    simp [ha, hb]

theorem adjustCursors_before (s : PageHelper) (r : PageResp) :
    (adjustCursors s r).1.before =
      if isUndefinedV r.before then s.before else r.before := by
  unfold adjustCursors
  by_cases ha : isUndefinedV r.after <;> by_cases hb : isUndefinedV r.before <;>
    simp [ha, hb]

/-- C4: after a sequence of successful `nextPage()` calls, the helper's
`after` cursor equals the `after` field of the last response whenever that
response reports one, and is left at its previous value otherwise (only
reported cursors are overwritten — likewise for `before`); each call
returns the response's `data`; and the single page request a call issues
carries the current `after` cursor in its options, or no `after` option at
all on a first call with no pinned cursor. -/
theorem c4_next_page_cursor_tracking :
    ∀ (h : PageHelper) (pre : List PageResp) (r : PageResp),
      ((nextPages h (pre ++ [r])).after =
        if isUndefinedV r.after then (nextPages h pre).after else r.after)
      ∧ ((nextPages h (pre ++ [r])).before =
        if isUndefinedV r.before then (nextPages h pre).before else r.before)
      ∧ (adjustCursors (nextPages h pre) r).2 = r.data
      ∧ (isUndefinedV h.after = false →
          lookupKey (retrieveOpts h h.after false) "after" = some h.after)
      ∧ (isUndefinedV h.after = true → hasKey (h.params.getD []) "after" = false →
          lookupKey (retrieveOpts h h.after false) "after" = none) := by
  intro h pre r
  have hstep : nextPages h (pre ++ [r]) = (adjustCursors (nextPages h pre) r).1 := by
    simp [nextPages, List.foldl_append]
  refine ⟨?_, ?_, rfl, ?_, ?_⟩
  · rw [hstep, adjustCursors_after]
  · rw [hstep, adjustCursors_before]
  · intro hdef
    unfold retrieveOpts
    rw [hdef]
    simp only [Bool.not_false, if_true, if_neg (Bool.false_ne_true)]
    exact lookupKey_objSet_self _ "after" h.after
  · intro hundef hkey
    unfold retrieveOpts
    rw [hundef]
    simp only [Bool.not_true]
    rw [if_neg (by simp)]
    rw [if_neg (by simp)]
    exact lookupKey_none_of_not_hasKey _ "after" hkey

/-- C4 witness: the theorem at a concrete helper and a one-response
sequence — the response's `after` token is adopted, the data is returned,
and the first request of a cursor-free helper carries no `after` option. -/
theorem c4_witness :
    (nextPages (phInit .null [] []).1 ([] ++ [⟨.str "d1", .undefinedV, .str "tA"⟩])).after =
      .str "tA"
    ∧ (adjustCursors (nextPages (phInit .null [] []).1 [])
        ⟨.str "d1", .undefinedV, .str "tA"⟩).2 = .str "d1"
    ∧ lookupKey
        (retrieveOpts (phInit .null [] []).1 (phInit .null [] []).1.after false)
        "after" = none := by
  have h := c4_next_page_cursor_tracking (phInit .null [] []).1 []
    ⟨.str "d1", .undefinedV, .str "tA"⟩
  refine ⟨?_, h.2.2.1, h.2.2.2.2 rfl rfl⟩
  have h1 := h.1
  simpa [isUndefinedV] using h1

/-- C3 (counterexample): constructing a helper with both `before` and
`after` pins `before` but does *not* discard the supplied `after` value
from the page requests: the `else if` never deletes the `after` key from
the copied `params`, so the first forward page request's options — and
the `Paginate` expression built from them — still carry it. -/
theorem c3_counterexample_after_kept :
    lookupKey
      (retrieveOpts
        (phInit .null [("before", .str "b"), ("after", .str "a")] []).1
        (phInit .null [("before", .str "b"), ("after", .str "a")] []).1.after
        false)
      "after" = some (.str "a")
    ∧ retrieveNextPage
        (phInit .null [("before", .str "b"), ("after", .str "a")] []).1
        (phInit .null [("before", .str "b"), ("after", .str "a")] []).2
        (phInit .null [("before", .str "b"), ("after", .str "a")] []).1.after
        false =
      .expr (.obj [("paginate", .null), ("after", .str "a")]) := ⟨rfl, rfl⟩

/-- C3 (amended): with both cursors supplied, construction succeeds,
`before` is pinned as the helper's cursor and deleted from the retained
params, and the helper's `after` cursor stays unset — but the supplied
`after` value is not discarded: it remains in the helper's params and
therefore appears in a first forward page request's options. -/
theorem c3_before_precedence :
    ∀ (s : Raw) (params : List (String × Raw)) (store : Store),
      hasKey params "before" = true →
        ((phInit s params store).1.before = (lookupKey params "before").getD .undefinedV
        ∧ (phInit s params store).1.after = .undefinedV
        ∧ (phInit s params store).1.params = some (objDelete params "before")
        ∧ (∀ v, lookupKey params "after" = some v →
            lookupKey
              (retrieveOpts (phInit s params store).1
                (phInit s params store).1.after false)
              "after" = some v)) := by
  intro s params store hb
  refine ⟨by simp [phInit, hb], by simp [phInit, hb], by simp [phInit, hb], ?_⟩
  intro v hv
  have hafter : (phInit s params store).1.after = .undefinedV := by simp [phInit, hb]
  have hparams : (phInit s params store).1.params =
      some (objDelete params "before") := by simp [phInit, hb]
  rw [hafter]
  unfold retrieveOpts
  rw [hparams]
  simp only [Option.getD_some, isUndefinedV, Bool.not_true]
  rw [if_neg (by simp)]
  rw [if_neg (by simp)]
  rw [lookupKey_objDelete_ne _ "after" "before" (by decide)]
  exact hv

/-- C3 witness: the amended theorem at concrete params carrying both
cursor options. -/
theorem c3_witness :
    (phInit .null [("before", .str "b"), ("after", .str "a")] [[]]).1.before =
      .str "b"
    ∧ (phInit .null [("before", .str "b"), ("after", .str "a")] [[]]).1.after =
        .undefinedV
    ∧ lookupKey
        (retrieveOpts
          (phInit .null [("before", .str "b"), ("after", .str "a")] [[]]).1
          (phInit .null [("before", .str "b"), ("after", .str "a")] [[]]).1.after
          false)
        "after" = some (.str "a") := by
  have h := c3_before_precedence .null
    [("before", .str "b"), ("after", .str "a")] [[]] rfl
  exact ⟨h.1, h.2.1, h.2.2.2 (.str "a") rfl⟩

theorem chainOf_storePush (store : Store) (h : PageHelper) (t : Transform)
    (hlt : h.fnsId < store.length) :
    chainOf (storePush store h.fnsId t) h = chainOf store h ++ [t] := by
  unfold chainOf storePush
  rw [List.getElem?_set_self hlt]
  simp

/-- C1 (counterexample): `map` does not leave the base helper's transform
chain unchanged.  `_clone` copies the `_faunaFunctions` *reference*, so the
`push` performed by `map` lands in the base helper's own array: after
`p.map(fn)` the base `p` sees a one-element chain where it saw an empty
one. -/
theorem c1_counterexample_base_chain_mutated :
    chainOf (phMap (phInit .null [] []).1 (.str "f") (phInit .null [] []).2).2
        (phInit .null [] []).1 = [.mapT (.str "f")]
    ∧ chainOf (phInit .null [] []).2 (phInit .null [] []).1 = []
    ∧ chainOf (phMap (phInit .null [] []).1 (.str "f") (phInit .null [] []).2).2
        (phInit .null [] []).1 ≠
      chainOf (phInit .null [] []).2 (phInit .null [] []).1 := by
  exact ⟨rfl, rfl, fun hcontra => List.cons_ne_nil _ _ hcontra⟩

/-- C1 (amended): `map`/`filter` return a fresh helper value that copies
the base's `set` and `before`/`after` cursors (dropping `params`, which
`_clone` never lists) and appends the deferred transform — but onto the
*shared* `_faunaFunctions` array, so the base helper's chain gains the
transform too and the two chains remain identical rather than
independent. -/
theorem c1_map_filter_shared_transforms :
    ∀ (h : PageHelper) (l : Raw) (store : Store),
      h.fnsId < store.length →
        ((phMap h l store).1.set = h.set
          ∧ (phMap h l store).1.before = h.before
          ∧ (phMap h l store).1.after = h.after
          ∧ (phMap h l store).1.fnsId = h.fnsId
          ∧ chainOf (phMap h l store).2 h = chainOf store h ++ [.mapT l]
          ∧ chainOf (phMap h l store).2 (phMap h l store).1 =
              chainOf (phMap h l store).2 h)
        ∧ ((phFilter h l store).1.set = h.set
          ∧ (phFilter h l store).1.before = h.before
          ∧ (phFilter h l store).1.after = h.after
          ∧ (phFilter h l store).1.fnsId = h.fnsId
          ∧ chainOf (phFilter h l store).2 h = chainOf store h ++ [.filterT l]
          ∧ chainOf (phFilter h l store).2 (phFilter h l store).1 =
              chainOf (phFilter h l store).2 h) := by
  intro h l store hlt
  constructor
  · exact ⟨rfl, rfl, rfl, rfl, chainOf_storePush store h (.mapT l) hlt, rfl⟩
  · exact ⟨rfl, rfl, rfl, rfl, chainOf_storePush store h (.filterT l) hlt, rfl⟩

/-- C1 witness: the amended theorem at a freshly constructed helper. -/
theorem c1_witness :
    chainOf (phMap (phInit .null [] []).1 (.str "g") (phInit .null [] []).2).2
        (phMap (phInit .null [] []).1 (.str "g") (phInit .null [] []).2).1 =
      chainOf (phInit .null [] []).2 (phInit .null [] []).1 ++ [.mapT (.str "g")] := by
  have h := (c1_map_filter_shared_transforms (phInit .null [] []).1 (.str "g")
      (phInit .null [] []).2 (by decide)).1
  rw [h.2.2.2.2.2, h.2.2.2.2.1]
